import Mathlib

/-!
Verification of the snapshot diff and serial-status-lifecycle engine of the
countdown repository. The definitions below are shallow embeddings of the
Python source: `compare.py` (diff engine), `log_updates.py` (history log and
current-state materializer), `shipment_tracker.py` (lifecycle reconciliation
and progress metrics) and `backend/data_processing/transformers.py`
(dashboard metrics). Wall-clock reads (`datetime.now()`) are modelled by an
explicit clock oracle passed as an argument; pandas string frames are
modelled as lists of rows with string fields.
-/

namespace Countdown

/-! ## Diff engine (`compare.py`, `compare_excel_files`)

A snapshot is the sanitized, warehouse-filtered frame keyed by the `serial`
column: an association list from serial to the row data that the comparison
loop reads (the `status` column plus the additional columns copied into each
change record). -/

/-- One row of a sanitized snapshot as used by `compare_excel_files`:
the `status` column and the additional columns
(`delivery`, `customer_name`, `shipment_number`, `created_by`). -/
structure SnapRow where
  status : String
  fields : List (String × String)
  deriving Repr, DecidableEq

/-- Lookup of a serial in a snapshot (first matching row, as a pandas merge
on a unique key would pair it). -/
def lookupRow (snap : List (String × SnapRow)) (s : String) : Option SnapRow :=
  (snap.find? (fun p => p.1 == s)).map (fun p => p.2)

/-- One row of the outer merge of the two snapshots on the `serial` key:
the serial together with its row in the old file (if present) and its row in
the new file (if present).  The pandas `indicator=True` merge tag
(`both` / `left_only` / `right_only`) is recovered from which sides are
present. -/
structure MergedRow where
  serial : String
  oldRow : Option SnapRow
  newRow : Option SnapRow
  deriving Repr, DecidableEq

/-- The merge indicator string of a merged row, as pandas reports it. -/
def MergedRow.tag (r : MergedRow) : String :=
  match r.oldRow, r.newRow with
  | some _, some _ => "both"
  | some _, none => "left_only"
  | none, _ => "right_only"

/-- Outer merge of two unique-key snapshots: all rows of the first file in
order (paired with the matching row of the second file when present),
followed by the rows of the second file whose serial is absent from the
first. -/
def mergedRows (prev cur : List (String × SnapRow)) : List MergedRow :=
  prev.map (fun p => ⟨p.1, some p.2, lookupRow cur p.1⟩)
    ++ (cur.filter (fun p => (lookupRow prev p.1).isNone)).map
        (fun p => ⟨p.1, none, some p.2⟩)

/-- One change record emitted by `compare_excel_files`. -/
structure Change where
  serial : String
  fromStatus : String
  toStatus : String
  changeType : String
  timestamp : String
  fields : List (String × String)
  deriving Repr, DecidableEq

/-- The `old_status` read from a merged row (empty string when the serial is
absent from the old file, matching the NaN fallback). -/
def MergedRow.oldStatus (r : MergedRow) : String :=
  match r.oldRow with
  | some o => o.status
  | none => ""

/-- The `new_status` read from a merged row. -/
def MergedRow.newStatus (r : MergedRow) : String :=
  match r.newRow with
  | some n => n.status
  | none => ""

/-- The `current_status` computed for a merged row: the new status for rows
present in the new file; for rows that disappeared (`left_only`), "SHP" when
the old status was "ASH", otherwise the old status. -/
def MergedRow.currentStatus (r : MergedRow) : String :=
  match r.oldRow, r.newRow with
  | _, some n => n.status
  | some o, none => if o.status = "ASH" then "SHP" else o.status
  | none, none => ""

/-- The additional-column values copied into a change record: taken from the
new file when the serial is present there (its `_new` cells are not NaN after
`fillna`), otherwise from the old file. -/
def MergedRow.changeFields (r : MergedRow) : List (String × String) :=
  match r.newRow with
  | some n => n.fields
  | none =>
    match r.oldRow with
    | some o => o.fields
    | none => []

/-- The comparison loop of `compare_excel_files` over the merged rows.
`processed` is the `processed_serials` set; `k` counts the changes emitted so
far and indexes the clock oracle, since `datetime.now()` is called once per
appended change record. -/
def compareRows (clock : Nat → String) :
    List MergedRow → List String → Nat → List Change
  | [], _, _ => []
  | r :: rs, processed, k =>
    if r.oldRow.isSome ∧ r.newRow.isSome ∧ r.oldStatus = r.newStatus then
      compareRows clock rs processed k
    else if r.serial ∈ processed then
      compareRows clock rs processed k
    else
      { serial := r.serial, fromStatus := r.oldStatus, toStatus := r.currentStatus,
        changeType := r.tag, timestamp := clock k,
        fields := r.changeFields } ::
        compareRows clock rs
          (if r.currentStatus = "SHP" then r.serial :: processed else processed)
          (k + 1)

/-- `compare_excel_files`: the list of change records computed between the
previous and the current snapshot. -/
def compare_excel_files (clock : Nat → String)
    (prev cur : List (String × SnapRow)) : List Change :=
  compareRows clock (mergedRows prev cur) [] 0

/-- A change record with its timestamp blanked, for comparing diff outputs
while ignoring the `recorded_at` stamp. -/
def eraseTimestamp (c : Change) : Change :=
  { c with timestamp := "" }

/-- Extension of the accumulated change list by a new batch
(`all_changes.extend(changes)` in `process_directory`). -/
def extendChanges (allChanges newChanges : List Change) : List Change :=
  allChanges ++ newChanges

/-- One step of the `current_status` construction in `process_directory`:
a change is recorded for its serial when the serial is new or the change
carries a strictly newer timestamp. -/
def applyChangeToStatus (acc : List (String × Change)) (c : Change) :
    List (String × Change) :=
  if c.serial == "" then acc
  else
    match acc.find? (fun p => p.1 == c.serial) with
    | none => acc ++ [(c.serial, c)]
    | some p =>
      if p.2.timestamp < c.timestamp then
        acc.map (fun q => if q.1 == c.serial then (c.serial, c) else q)
      else acc

/-- The `current_status` table built from a list of change records, starting
from a given table. -/
def buildCurrentStatus (acc : List (String × Change)) (changes : List Change) :
    List (String × Change) :=
  changes.foldl applyChangeToStatus acc

/-! ## History log and current-state materializer (`log_updates.py`) -/

/-- The record payload stored per serial in a delta item and in
`current_status.json`: the status plus the remaining denormalized fields. -/
structure DRec where
  status : String
  fields : List (String × String)
  deriving Repr, DecidableEq

/-- One item of a delta file list: a serial and its record. -/
structure DeltaItem where
  serial : String
  record : DRec
  deriving Repr, DecidableEq

/-- A delta file: the `added` / `updated` / `removed` item lists and the
metadata counters read by `append_to_master_history`. -/
structure Delta where
  added : List DeltaItem
  updated : List DeltaItem
  removed : List DeltaItem
  addedCount : Nat
  removedCount : Nat
  updatedCount : Nat
  deriving Repr, DecidableEq

/-- The master history file: metadata plus the list of appended deltas. -/
structure History where
  lastUpdated : String
  deltaCount : Nat
  totalChanges : Nat
  deltas : List Delta
  deriving Repr, DecidableEq

/-- The fresh history value (`delta_count = 0`, no deltas). -/
def emptyHistory (now : String) : History :=
  { lastUpdated := now, deltaCount := 0, totalChanges := 0, deltas := [] }

/-- `append_to_master_history`: append the delta and recompute the metadata
counters over all deltas. -/
def append_to_master_history (now : String) (delta : Delta) (h : History) :
    History :=
  let ds := h.deltas ++ [delta]
  { lastUpdated := now
    deltaCount := ds.length
    totalChanges := (ds.map (fun d => d.addedCount + d.removedCount + d.updatedCount)).sum
    deltas := ds }

/-- The `current_status.json` state: metadata plus the keyed record table. -/
structure CurStatus where
  lastUpdated : String
  recordCount : Nat
  records : List (String × DRec)
  deriving Repr, DecidableEq

/-- The fresh current status value (no records). -/
def emptyCurStatus (now : String) : CurStatus :=
  { lastUpdated := now, recordCount := 0, records := [] }

/-- Assignment `records[serial] = record` on the keyed table: overwrite the
existing entry in place, or append a new one. -/
def setRecord (m : List (String × DRec)) (k : String) (v : DRec) :
    List (String × DRec) :=
  if m.any (fun p => p.1 == k) then
    m.map (fun p => if p.1 == k then (k, v) else p)
  else m ++ [(k, v)]

/-- Deletion `del records[serial]` on the keyed table. -/
def delRecord (m : List (String × DRec)) (k : String) : List (String × DRec) :=
  m.filter (fun p => !(p.1 == k))

/-- Lookup in the keyed record table. -/
def getRecord (m : List (String × DRec)) (k : String) : Option DRec :=
  (m.find? (fun p => p.1 == k)).map (fun p => p.2)

/-- The record-table transformation of `generate_current_status`: first all
`added` items are written, then all `updated` items, then all `removed`
items are deleted. -/
def applyDeltaRecords (delta : Delta) (m : List (String × DRec)) :
    List (String × DRec) :=
  let m1 := delta.added.foldl (fun acc it => setRecord acc it.serial it.record) m
  let m2 := delta.updated.foldl (fun acc it => setRecord acc it.serial it.record) m1
  delta.removed.foldl (fun acc it => delRecord acc it.serial) m2

/-- `generate_current_status`: apply one delta to the current-status state
and refresh the metadata. -/
def generate_current_status (now : String) (delta : Delta) (cs : CurStatus) :
    CurStatus :=
  let r := applyDeltaRecords delta cs.records
  { lastUpdated := now, recordCount := r.length, records := r }

/-- One reconciliation cycle as `process_delta_directory` performs it for one
delta file: append the delta to the master history and apply it to the
current status. -/
def runCycle (now : String) (d : Delta) (hs : History × CurStatus) :
    History × CurStatus :=
  (append_to_master_history now d hs.1, generate_current_status now d hs.2)

/-- Incremental processing of a sequence of delta batches, each cycle
appending to the history and materializing into the current status, clocked
by the oracle. -/
def runCycles (clock : Nat → String) (k : Nat) (hs : History × CurStatus) :
    List Delta → History × CurStatus
  | [] => hs
  | d :: ds => runCycles clock (k + 1) (runCycle (clock k) d hs) ds

/-- Replay: materialize a list of deltas in order onto the empty
current-status state, as `process_delta_directory` does for a directory when
no current-status file exists yet. -/
def replayDeltas (clock : Nat → String) (now0 : String) (ds : List Delta) :
    CurStatus :=
  (runCycles clock 0 (emptyHistory now0, emptyCurStatus now0) ds).2

/-! ## Lifecycle reconciler (`shipment_tracker.py`, `process_ash_shp_statuses`) -/

/-- One row of the serial frame as `process_ash_shp_statuses` reads it. -/
structure TRow where
  serial : String
  status : String
  createdBy : String
  deriving Repr, DecidableEq

/-- Whether the frame holds a row for serial `s` with the given status. -/
def hasStatus (rows : List TRow) (s status : String) : Bool :=
  rows.any (fun r => r.serial == s && r.status == status)

/-- `process_ash_shp_statuses`: identify the ASH users, drop SHP rows of
serials that have only SHP (no ASH in this frame), drop ASH rows of serials
that have both ASH and SHP, and flag each surviving row with whether its
user is an ASH user.  The function receives only the current frame: no
previously materialized state is consulted. -/
def process_ash_shp_statuses (rows : List TRow) :
    List (TRow × Bool) × List String :=
  let ashUsers := (rows.filter (fun r => r.status == "ASH")).map (fun r => r.createdBy)
  let onlyShp := fun s => hasStatus rows s "SHP" && !(hasStatus rows s "ASH")
  let both := fun s => hasStatus rows s "ASH" && hasStatus rows s "SHP"
  let r1 := rows.filter (fun r => !(onlyShp r.serial && r.status == "SHP"))
  let r2 := r1.filter (fun r => !(both r.serial && r.status == "ASH"))
  (r2.map (fun r => (r, ashUsers.contains r.createdBy)), ashUsers)

/-! ## Snapshot preprocessing
(`backend/data_processing/transformers.py`, `preprocess_serial_data`) -/

/-- One row of the combined frame as `preprocess_serial_data` reads it. -/
structure PRow where
  serialNumber : String
  status : String
  deriving Repr, DecidableEq

/-- The sort key of `preprocess_serial_data`: ascending serial number, SHP
rows before the others within a serial (`is_shp` descending). -/
def prowLE (a b : PRow) : Bool :=
  if a.serialNumber == b.serialNumber then
    (if a.status == "SHP" then 0 else 1) ≤ (if b.status == "SHP" then 0 else 1)
  else a.serialNumber < b.serialNumber

/-- Sorted insertion used to realize the `sort_values` call. -/
def insertSorted (x : PRow) : List PRow → List PRow
  | [] => [x]
  | y :: ys => if prowLE x y then x :: y :: ys else y :: insertSorted x ys

/-- The sort step: by `serial_number` ascending and the SHP flag
descending. -/
def sortRows (rows : List PRow) : List PRow :=
  rows.foldr insertSorted []

/-- The dedup step: keep the first row of each serial number. -/
def dropDupSerials : List PRow → List String → List PRow
  | [], _ => []
  | r :: rs, seen =>
    if seen.contains r.serialNumber then dropDupSerials rs seen
    else r :: dropDupSerials rs (r.serialNumber :: seen)

/-- `preprocess_serial_data`: keep one row per serial number, preferring a
SHP row when one exists.  Rows of serials that have only SHP are kept. -/
def preprocess_serial_data (rows : List PRow) : List PRow :=
  dropDupSerials (sortRows rows) []

/-! ## Progress metrics -/

/-- `calculate_progress_metrics`
(`backend/data_processing/transformers.py`): the per-user-per-delivery
progress percentage, `scanned_count / number_of_packages * 100`, with no
clamp.  (Pandas computes this in floating point; on the inputs considered
here the rational value coincides.) -/
def calculate_progress_metrics (scannedCount numberOfPackages : ℚ) : ℚ :=
  scannedCount / numberOfPackages * 100

/-- The material `completion_percentage` of `process_snapshot`
(`shipment_tracker.py`): `(scanned/expected*100).clip(0, 100)` when the
expected quantity is positive, else 0. -/
def completion_percentage (scannedQty expectedQty : ℚ) : ℚ :=
  if 0 < expectedQty then max 0 (min 100 (scannedQty / expectedQty * 100))
  else 0

/-! ## Delivery aggregation tail of `process_snapshot`
(`shipment_tracker.py`), count-based fallback path -/

/-- One row of the serial frame keyed by delivery and status, as the
fallback per-delivery counting reads it. -/
structure SerialEntry where
  delivery : String
  status : String
  deriving Repr, DecidableEq

/-- Number of serial rows for a delivery. -/
def serialCountFor (serials : List SerialEntry) (d : String) : Nat :=
  (serials.filter (fun e => e.delivery == d)).length

/-- Number of serial rows for a delivery with a given status. -/
def statusCountFor (serials : List SerialEntry) (d status : String) : Nat :=
  (serials.filter (fun e => e.delivery == d && e.status == status)).length

/-- One row of the per-user-per-delivery aggregation after step 5 of
`process_snapshot`: the ASH ("assigned to shipper") and SHP counts and the
expected package count merged from the delivery file (absent when the
delivery did not match). -/
structure AggRow where
  user : String
  delivery : String
  ashCount : Nat
  shpCount : Nat
  deliveryTotalPackages : Option ℚ
  deriving Repr, DecidableEq

/-- `scanned_packages`: the sum of the ASH and SHP counts. -/
def scanned_packages (r : AggRow) : ℚ :=
  (r.ashCount : ℚ) + (r.shpCount : ℚ)

/-- The `scanned_exceeds_expected` flag (count-based fallback): set when the
number of serial rows of the delivery exceeds a positive expected package
count. -/
def scanned_exceeds_expected (serials : List SerialEntry) (r : AggRow) : Bool :=
  match r.deliveryTotalPackages with
  | some dc => decide (dc < (serialCountFor serials r.delivery : ℚ)) && decide (0 < dc)
  | none => false

/-- The `progress_percentage` of an aggregation row, following the
assignment sequence of `process_snapshot` step 6: the unclamped normal
computation, the equal-counts override, the capped recalculation for
flagged rows, and the all-shipped override.  Rounding to two decimals is
omitted (the values proved about are integral). -/
def progress_percentage (serials : List SerialEntry) (r : AggRow) : ℚ :=
  let exceeds := scanned_exceeds_expected serials r
  let p0 : ℚ :=
    match r.deliveryTotalPackages with
    | some t =>
      if !exceeds then (if 0 < t then scanned_packages r / t * 100 else 0)
      else 0
    | none => 0
  let p1 : ℚ :=
    match r.deliveryTotalPackages with
    | some t => if scanned_packages r = t ∧ 0 < t then 100 else p0
    | none => p0
  let p2 : ℚ :=
    if exceeds && r.deliveryTotalPackages.isSome then
      let tot := serialCountFor serials r.delivery
      let shp := statusCountFor serials r.delivery "SHP"
      let ash := statusCountFor serials r.delivery "ASH"
      if 0 < tot then min 100 (((ash : ℚ) + (shp : ℚ)) / (tot : ℚ) * 100)
      else p1
    else p1
  if 0 < r.shpCount ∧ r.ashCount = 0 then 100 else p2

/-- The aggregation columns present right before the cleanup step of
`process_snapshot` (after the progress computation). -/
def aggColumnsBeforeCleanup : List String :=
  ["created_by", "delivery", "assigned to shipper_count", "shipped_count",
   "delivery_total_packages", "scanned_packages", "progress_percentage",
   "scanned_exceeds_expected"]

/-- `agg.drop(column, axis=1)`. -/
def dropColumn (cols : List String) (c : String) : List String :=
  cols.filter (fun x => !(x == c))

/-- The columns of the output frame written to Parquet: the temporary
`scanned_exceeds_expected` column is dropped, the `is_ash_user` flag is
added, and `created_by` is renamed to `user`. -/
def aggColumnsFinal : List String :=
  ((dropColumn aggColumnsBeforeCleanup "scanned_exceeds_expected")
    ++ ["is_ash_user"]).map (fun c => if c == "created_by" then "user" else c)

/-- Number of change records for serial `s` carrying the terminal "SHP"
to-status in a batch. -/
def shpCountFor (s : String) (cs : List Change) : Nat :=
  (cs.filter (fun c => c.serial == s && c.toStatus == "SHP")).length

/-- The last record assigned to a serial by a list of delta items (the
record that a left-to-right dict-assignment loop leaves in place). -/
def lastItemFor (l : List DeltaItem) (s : String) : Option DRec :=
  (l.reverse.find? (fun it => it.serial == s)).map (fun it => it.record)

/-- The current state reached by materializing a list of deltas one by one,
starting from a given state (the per-file loop of
`process_delta_directory`). -/
def materializeFrom (clock : Nat → String) (k : Nat) (cs : CurStatus) :
    List Delta → CurStatus
  | [] => cs
  | d :: ds => materializeFrom clock (k + 1) (generate_current_status (clock k) d cs) ds

/-- Replay of the full master history from the empty current-status state. -/
def replay_history (clock : Nat → String) (now1 : String) (h : History) :
    CurStatus :=
  materializeFrom clock 0 (emptyCurStatus now1) h.deltas

/-! ## Concrete fixtures used by the closed counterexample and witness
theorems -/

/-- A clock oracle returning distinct stamps for the first two readings. -/
def cexClock : Nat → String := fun n => if n == 0 then "t0" else "t1"

/-- A snapshot row with the PICKED source status "ASH". -/
def cexRowASH : SnapRow := { status := "ASH", fields := [("delivery", "D1")] }

/-- A snapshot row with a status that is neither "ASH" nor "SHP". -/
def cexRowFOO : SnapRow := { status := "FOO", fields := [] }

/-- A delta record with the terminal "SHP" status. -/
def cexDRecSHP : DRec := { status := "SHP", fields := [] }

/-- A delta record with the "ASH" status. -/
def cexDRecASH : DRec := { status := "ASH", fields := [] }

/-- A delta carrying one updated item: serial "S1" moved to "SHP". -/
def cexDeltaShp : Delta :=
  { added := [], updated := [⟨"S1", cexDRecSHP⟩], removed := [],
    addedCount := 0, removedCount := 0, updatedCount := 1 }

/-- Number of `updated` records with to-status "SHP" for a serial across the
whole master history. -/
def updatedShpCount (h : History) (s : String) : Nat :=
  (h.deltas.map (fun d =>
    (d.updated.filter (fun it => it.serial == s && it.record.status == "SHP")).length)).sum

/-- A frame holding both an "ASH" and a "SHP" record for serial "S2". -/
def cexRowsBoth : List TRow :=
  [⟨"S2", "ASH", "u1"⟩, ⟨"S2", "SHP", "u1"⟩]

/-- Twelve serial rows of delivery "D": five "ASH" and seven "SHP"
(the Scenario 3 situation against an expected count of 10). -/
def cexSerialsD : List SerialEntry :=
  List.replicate 5 ⟨"D", "ASH"⟩ ++ List.replicate 7 ⟨"D", "SHP"⟩

/-- The aggregation row of Scenario 3: counts 5 + 7 against 10 expected
packages. -/
def cexAggRow : AggRow :=
  { user := "u1", delivery := "D", ashCount := 5, shpCount := 7,
    deliveryTotalPackages := some 10 }

/-! ## Lemmas about the diff engine -/

theorem compareRows_serials (clock : Nat → String) (rows : List MergedRow) :
    ∀ (processed : List String) (k : Nat) (c : Change),
      c ∈ compareRows clock rows processed k →
      ∃ r, r ∈ rows ∧ c.serial = r.serial := by
  induction rows with
  | nil => intro processed k c hc; simp [compareRows] at hc
  | cons r rs ih =>
    intro processed k c hc
    simp only [compareRows] at hc
    by_cases h1 : r.oldRow.isSome ∧ r.newRow.isSome ∧ r.oldStatus = r.newStatus
    · rw [if_pos h1] at hc
      obtain ⟨r0, hr0, hs0⟩ := ih _ _ _ hc
      exact ⟨r0, List.mem_cons_of_mem _ hr0, hs0⟩
    · rw [if_neg h1] at hc
      by_cases h2 : r.serial ∈ processed
      · rw [if_pos h2] at hc
        obtain ⟨r0, hr0, hs0⟩ := ih _ _ _ hc
        exact ⟨r0, List.mem_cons_of_mem _ hr0, hs0⟩
      · rw [if_neg h2] at hc
        rcases List.mem_cons.mp hc with h | h
        · exact ⟨r, List.mem_cons_self _ _, by rw [h]⟩
        · obtain ⟨r0, hr0, hs0⟩ := ih _ _ _ h
          exact ⟨r0, List.mem_cons_of_mem _ hr0, hs0⟩

theorem compareRows_processed (clock : Nat → String) (rows : List MergedRow) :
    ∀ (processed : List String) (k : Nat) (s : String), s ∈ processed →
      ∀ c ∈ compareRows clock rows processed k, c.serial ≠ s := by
  induction rows with
  | nil => intro processed k s _ c hc; simp [compareRows] at hc
  | cons r rs ih =>
    intro processed k s hs c hc
    simp only [compareRows] at hc
    by_cases h1 : r.oldRow.isSome ∧ r.newRow.isSome ∧ r.oldStatus = r.newStatus
    · rw [if_pos h1] at hc
      exact ih _ _ _ hs c hc
    · rw [if_neg h1] at hc
      by_cases h2 : r.serial ∈ processed
      · rw [if_pos h2] at hc
        exact ih _ _ _ hs c hc
      · rw [if_neg h2] at hc
        rcases List.mem_cons.mp hc with h | h
        · intro hcs
          apply h2
          have hcs2 : r.serial = s := by rw [h] at hcs; exact hcs
          rw [hcs2]
          exact hs
        · refine ih _ _ _ ?_ c h
          by_cases hcur : r.currentStatus = "SHP"
          · rw [if_pos hcur]
            exact List.mem_cons_of_mem _ hs
          · rw [if_neg hcur]
            exact hs

theorem compareRows_shp_once (clock : Nat → String) (rows : List MergedRow) :
    ∀ (processed : List String) (k : Nat) (s : String),
      shpCountFor s (compareRows clock rows processed k) ≤ 1 := by
  induction rows with
  | nil => intro processed k s; simp [compareRows, shpCountFor]
  | cons r rs ih =>
    intro processed k s
    simp only [compareRows]
    by_cases h1 : r.oldRow.isSome ∧ r.newRow.isSome ∧ r.oldStatus = r.newStatus
    · rw [if_pos h1]; exact ih _ _ s
    · rw [if_neg h1]
      by_cases h2 : r.serial ∈ processed
      · rw [if_pos h2]; exact ih _ _ s
      · rw [if_neg h2]
        by_cases hshp : r.currentStatus = "SHP"
        · rw [if_pos hshp]
          by_cases hser : r.serial = s
          · subst hser
            have hrest : ∀ c ∈ compareRows clock rs (r.serial :: processed) (k + 1),
                c.serial ≠ r.serial := by
              intro c hc
              exact compareRows_processed clock rs _ _ r.serial
                (List.mem_cons_self _ _) c hc
            have hfil :
                (compareRows clock rs (r.serial :: processed) (k + 1)).filter
                  (fun c => c.serial == r.serial && c.toStatus == "SHP") = [] := by
              refine List.filter_eq_nil_iff.mpr ?_
              intro c hc
              simp [hrest c hc]
            simp only [shpCountFor, List.filter_cons]
            rw [if_pos (by simp [hshp])]
            rw [hfil]
            simp
          · simp only [shpCountFor, List.filter_cons]
            rw [if_neg (by simp [hser])]
            exact ih _ _ s
        · rw [if_neg hshp]
          simp only [shpCountFor, List.filter_cons]
          rw [if_neg (by simp [hshp])]
          exact ih _ _ s

theorem compareRows_erase_clock (clock1 clock2 : Nat → String)
    (rows : List MergedRow) :
    ∀ (processed : List String) (k1 k2 : Nat),
      (compareRows clock1 rows processed k1).map eraseTimestamp =
      (compareRows clock2 rows processed k2).map eraseTimestamp := by
  induction rows with
  | nil => intro processed k1 k2; simp [compareRows]
  | cons r rs ih =>
    intro processed k1 k2
    simp only [compareRows]
    by_cases h1 : r.oldRow.isSome ∧ r.newRow.isSome ∧ r.oldStatus = r.newStatus
    · rw [if_pos h1, if_pos h1]; exact ih _ _ _
    · rw [if_neg h1, if_neg h1]
      by_cases h2 : r.serial ∈ processed
      · rw [if_pos h2, if_pos h2]; exact ih _ _ _
      · rw [if_neg h2, if_neg h2]
        simp only [List.map_cons, eraseTimestamp]
        rw [ih _ (k1 + 1) (k2 + 1)]

theorem compareRows_both_equal (clock : Nat → String) (s : String)
    (rows : List MergedRow) :
    ∀ (processed : List String) (k : Nat),
      (∀ r ∈ rows, r.serial = s →
        r.oldRow.isSome ∧ r.newRow.isSome ∧ r.oldStatus = r.newStatus) →
      ∀ c ∈ compareRows clock rows processed k, c.serial ≠ s := by
  induction rows with
  | nil => intro processed k _ c hc; simp [compareRows] at hc
  | cons r rs ih =>
    intro processed k hrows c hc
    simp only [compareRows] at hc
    by_cases h1 : r.oldRow.isSome ∧ r.newRow.isSome ∧ r.oldStatus = r.newStatus
    · rw [if_pos h1] at hc
      exact ih _ _ (fun r0 h0 => hrows r0 (List.mem_cons_of_mem _ h0)) c hc
    · rw [if_neg h1] at hc
      have hrserial : r.serial ≠ s := by
        intro h
        exact h1 (hrows r (List.mem_cons_self _ _) h)
      by_cases h2 : r.serial ∈ processed
      · rw [if_pos h2] at hc
        exact ih _ _ (fun r0 h0 => hrows r0 (List.mem_cons_of_mem _ h0)) c hc
      · rw [if_neg h2] at hc
        rcases List.mem_cons.mp hc with h | h
        · rw [h]; exact hrserial
        · exact ih _ _ (fun r0 h0 => hrows r0 (List.mem_cons_of_mem _ h0)) c h

theorem compareRows_all_both_equal (clock : Nat → String)
    (rows : List MergedRow) :
    ∀ (processed : List String) (k : Nat),
      (∀ r ∈ rows,
        r.oldRow.isSome ∧ r.newRow.isSome ∧ r.oldStatus = r.newStatus) →
      compareRows clock rows processed k = [] := by
  induction rows with
  | nil => intro processed k _; simp [compareRows]
  | cons r rs ih =>
    intro processed k hrows
    simp only [compareRows]
    rw [if_pos (hrows r (List.mem_cons_self _ _))]
    exact ih _ _ (fun r0 h0 => hrows r0 (List.mem_cons_of_mem _ h0))

theorem filter_key_of_nodup {β : Type} {l : List (String × β)} {s : String}
    {b : β} (hnd : (l.map Prod.fst).Nodup) (hmem : (s, b) ∈ l) :
    l.filter (fun p => p.1 == s) = [(s, b)] := by
  induction l with
  | nil => simp at hmem
  | cons p l ih =>
    simp only [List.map_cons, List.nodup_cons] at hnd
    rcases List.mem_cons.mp hmem with h | h
    · rw [List.filter_cons_of_pos (by simp [← h])]
      have hnil : l.filter (fun q => q.1 == s) = [] := by
        refine List.filter_eq_nil_iff.mpr ?_
        intro q hq
        simp only [beq_iff_eq]
        intro hqs
        apply hnd.1
        have hp1 : p.1 = s := by rw [← h]
        rw [hp1, ← hqs]
        exact List.mem_map_of_mem Prod.fst hq
      rw [hnil, ← h]
    · have hps : p.1 ≠ s := by
        intro hp
        apply hnd.1
        rw [hp]
        exact List.mem_map_of_mem Prod.fst h
      rw [List.filter_cons_of_neg (by simp [hps])]
      exact ih hnd.2 h

theorem lookupRow_of_nodup {l : List (String × SnapRow)} {s : String}
    {b : SnapRow} (hnd : (l.map Prod.fst).Nodup) (hmem : (s, b) ∈ l) :
    lookupRow l s = some b := by
  induction l with
  | nil => simp at hmem
  | cons p l ih =>
    simp only [List.map_cons, List.nodup_cons] at hnd
    rcases List.mem_cons.mp hmem with h | h
    · have hfind : List.find? (fun q : String × SnapRow => q.1 == s) (p :: l) =
          some p :=
        List.find?_cons_of_pos _ (by simp [← h])
      simp only [lookupRow, hfind]
      simp [← h]
    · have hps : p.1 ≠ s := by
        intro hp
        apply hnd.1
        rw [hp]
        exact List.mem_map_of_mem Prod.fst h
      have hfind : List.find? (fun q : String × SnapRow => q.1 == s) (p :: l) =
          List.find? (fun q : String × SnapRow => q.1 == s) l :=
        List.find?_cons_of_neg _ (by simp [hps])
      simp only [lookupRow, hfind]
      exact ih hnd.2 h

theorem lookupRow_isSome_of_mem {l : List (String × SnapRow)}
    {p : String × SnapRow} (hmem : p ∈ l) : (lookupRow l p.1).isSome := by
  induction l with
  | nil => simp at hmem
  | cons q l ih =>
    rcases List.mem_cons.mp hmem with h | h
    · have hfind : List.find? (fun x : String × SnapRow => x.1 == p.1) (q :: l) =
          some q :=
        List.find?_cons_of_pos _ (by simp [h])
      simp [lookupRow, hfind]
    · by_cases hq : (q.1 == p.1) = true
      · have hfind : List.find? (fun x : String × SnapRow => x.1 == p.1)
            (q :: l) = some q :=
          List.find?_cons_of_pos _ hq
        simp [lookupRow, hfind]
      · have hfind : List.find? (fun x : String × SnapRow => x.1 == p.1)
            (q :: l) = List.find? (fun x : String × SnapRow => x.1 == p.1) l :=
          List.find?_cons_of_neg _ (by simpa using hq)
        simp only [lookupRow, hfind]
        exact ih h

theorem mergedRows_filter_key {prev : List (String × SnapRow)}
    (cur : List (String × SnapRow))
    {s : String} {o : SnapRow} (hnd : (prev.map Prod.fst).Nodup)
    (hmem : (s, o) ∈ prev) :
    (mergedRows prev cur).filter (fun r => r.serial == s) =
      [⟨s, some o, lookupRow cur s⟩] := by
  unfold mergedRows
  rw [List.filter_append]
  have hleft : (prev.map (fun p => (⟨p.1, some p.2, lookupRow cur p.1⟩ :
      MergedRow))).filter (fun r => r.serial == s) =
        [⟨s, some o, lookupRow cur s⟩] := by
    rw [List.filter_map]
    have : (prev.filter (fun p => p.1 == s)) = [(s, o)] :=
      filter_key_of_nodup hnd hmem
    simp only [Function.comp_def, MergedRow.serial]
    rw [this]
    simp
  have hright : ((cur.filter (fun p => (lookupRow prev p.1).isNone)).map
      (fun p => (⟨p.1, none, some p.2⟩ : MergedRow))).filter
        (fun r => r.serial == s) = [] := by
    rw [List.filter_map]
    refine List.map_eq_nil_iff.mpr ?_
    refine List.filter_eq_nil_iff.mpr ?_
    intro p hp
    simp only [Function.comp_def, MergedRow.serial, beq_iff_eq]
    intro hps
    have hmemp := List.mem_filter.mp hp
    have hsome : (lookupRow prev p.1).isSome := by
      rw [hps]
      have := lookupRow_of_nodup hnd hmem
      simp [this]
    rw [Option.isNone_iff_eq_none] at hmemp
    rw [hmemp.2] at hsome
    simp at hsome
  rw [hleft, hright]
  simp

theorem mergedRows_self_all_equal {snap : List (String × SnapRow)}
    (hnd : (snap.map Prod.fst).Nodup) :
    ∀ r ∈ mergedRows snap snap,
      r.oldRow.isSome ∧ r.newRow.isSome ∧ r.oldStatus = r.newStatus := by
  intro r hr
  unfold mergedRows at hr
  rcases List.mem_append.mp hr with h | h
  · obtain ⟨p, hp, hpe⟩ := List.mem_map.mp h
    have hlook : lookupRow snap p.1 = some p.2 := by
      rcases p with ⟨a, b⟩
      exact lookupRow_of_nodup hnd hp
    rw [← hpe]
    simp [MergedRow.oldStatus, MergedRow.newStatus, hlook]
  · obtain ⟨p, hp, hpe⟩ := List.mem_map.mp h
    have hmemp := List.mem_filter.mp hp
    have hsome := lookupRow_isSome_of_mem hmemp.1
    rw [Option.isNone_iff_eq_none] at hmemp
    rw [hmemp.2] at hsome
    simp at hsome

theorem compareRows_left_only (clock : Nat → String) (s : String)
    (o : SnapRow) (rows : List MergedRow) :
    ∀ (processed : List String) (k : Nat), s ∉ processed →
      rows.filter (fun r => r.serial == s) = [⟨s, some o, none⟩] →
      ∃ t, (compareRows clock rows processed k).filter
          (fun c => c.serial == s) =
        [⟨s, o.status, if o.status = "ASH" then "SHP" else o.status,
          "left_only", t, o.fields⟩] := by
  induction rows with
  | nil => intro processed k _ hf; simp at hf
  | cons r rs ih =>
    intro processed k hp hf
    by_cases hrs : r.serial = s
    · rw [List.filter_cons_of_pos (by simp [hrs])] at hf
      have hr : r = ⟨s, some o, none⟩ := (List.cons_eq_cons.mp hf).1
      have hrs0 : rs.filter (fun r0 => r0.serial == s) = [] :=
        (List.cons_eq_cons.mp hf).2
      have hnos : ∀ r0 ∈ rs, r0.serial ≠ s := by
        intro r0 h0 hser
        have : r0 ∈ rs.filter (fun r1 => r1.serial == s) :=
          List.mem_filter.mpr ⟨h0, by simp [hser]⟩
        rw [hrs0] at this
        simp at this
      simp only [compareRows, hr]
      rw [if_neg (by simp [MergedRow.oldStatus, MergedRow.newStatus])]
      rw [if_neg (by simpa using hp)]
      refine ⟨clock k, ?_⟩
      rw [List.filter_cons_of_pos (by simp)]
      have hrest :
          (compareRows clock rs (if MergedRow.currentStatus ⟨s, some o, none⟩ = "SHP"
              then MergedRow.serial ⟨s, some o, none⟩ :: processed else processed)
            (k + 1)).filter (fun c => c.serial == s) = [] := by
        refine List.filter_eq_nil_iff.mpr ?_
        intro c hc
        obtain ⟨r0, hr0, hs0⟩ := compareRows_serials clock rs _ _ c hc
        simp [hs0, hnos r0 hr0]
      rw [hrest]
      simp [MergedRow.currentStatus, MergedRow.oldStatus, MergedRow.tag,
        MergedRow.changeFields]
    · rw [List.filter_cons_of_neg (by simp [hrs])] at hf
      simp only [compareRows]
      by_cases h1 : r.oldRow.isSome ∧ r.newRow.isSome ∧ r.oldStatus = r.newStatus
      · rw [if_pos h1]; exact ih _ _ hp hf
      · rw [if_neg h1]
        by_cases h2 : r.serial ∈ processed
        · rw [if_pos h2]; exact ih _ _ hp hf
        · rw [if_neg h2]
          obtain ⟨t, ht⟩ := ih
            (if r.currentStatus = "SHP" then r.serial :: processed else processed)
            (k + 1)
            (by
              by_cases hcur : r.currentStatus = "SHP"
              · rw [if_pos hcur]
                intro hmem
                rcases List.mem_cons.mp hmem with h | h
                · exact hrs h.symm
                · exact hp h
              · rw [if_neg hcur]; exact hp) hf
          refine ⟨t, ?_⟩
          rw [List.filter_cons_of_neg (by simp [hrs])]
          exact ht

/-! ## Claim C1 -/

/-- C1 (amended): a serial present in the previous snapshot and absent from
the current one is emitted exactly once; its to-status is "SHP" when its
previous status was "ASH" and its previous status otherwise — but in both
cases the record carries the merge tag "left_only" (the marker of a
disappearance), the same `change_type` as a true removal; the claimed
removal-versus-update flag distinction does not exist in the emitted
record. -/
theorem c1_disappearing_serial (clock : Nat → String)
    (prev cur : List (String × SnapRow)) (s : String) (o : SnapRow)
    (hnd : (prev.map Prod.fst).Nodup) (hmem : (s, o) ∈ prev)
    (hcur : lookupRow cur s = none) :
    ∃ t, (compare_excel_files clock prev cur).filter
        (fun c => c.serial == s) =
      [⟨s, o.status, if o.status = "ASH" then "SHP" else o.status,
        "left_only", t, o.fields⟩] := by
  unfold compare_excel_files
  refine compareRows_left_only clock s o _ [] 0 (by simp) ?_
  have := mergedRows_filter_key cur hnd hmem
  rw [hcur] at this
  exact this

/-- C1 witness: the general theorem applied to the one-serial snapshot pair
of Scenario 1 (previous `S1 = ASH`, current empty). -/
theorem c1_witness :
    (((([("S1", cexRowASH)] : List (String × SnapRow)).map Prod.fst).Nodup ∧
      ("S1", cexRowASH) ∈ ([("S1", cexRowASH)] : List (String × SnapRow)) ∧
      lookupRow [] "S1" = none) ∧
    ∃ t, (compare_excel_files cexClock [("S1", cexRowASH)] []).filter
        (fun c => c.serial == "S1") =
      [⟨"S1", "ASH", "SHP", "left_only", t, cexRowASH.fields⟩]) := by
  refine ⟨⟨by decide, by decide, by decide⟩, ?_⟩
  have h := c1_disappearing_serial cexClock [("S1", cexRowASH)] [] "S1"
    cexRowASH (by decide) (by decide) (by decide)
  simpa [cexRowASH] using h

/-- C1 counterexample: the disappearing serial whose previous status was
"ASH" is emitted with `change_type = "left_only"` — identical to the tag of
a disappearing serial whose previous status was not "ASH" — so the diff does
not mark the latter as a removal and the former as a non-removal; only the
to-status differs. -/
theorem c1_counterexample :
    (compare_excel_files cexClock [("S1", cexRowASH)] []).map
        (fun c => (c.serial, c.fromStatus, c.toStatus, c.changeType)) =
      [("S1", "ASH", "SHP", "left_only")] ∧
    (compare_excel_files cexClock [("S2", cexRowFOO)] []).map
        (fun c => (c.serial, c.fromStatus, c.toStatus, c.changeType)) =
      [("S2", "FOO", "FOO", "left_only")] := by
  exact ⟨by decide, by decide⟩

/-! ## Claim C3 -/

/-- C3 (amended): within one diff batch produced by `compare_excel_files`,
each serial is emitted with to-status "SHP" at most once (the
`processed_serials` set suppresses later rows of a serial that has reached
"SHP"); no at-most-once guarantee holds across the whole History Log, since
`append_to_master_history` appends deltas unconditionally. -/
theorem c3_per_batch_shp_once (clock : Nat → String)
    (prev cur : List (String × SnapRow)) (s : String) :
    shpCountFor s (compare_excel_files clock prev cur) ≤ 1 :=
  compareRows_shp_once clock _ [] 0 s

/-- C3 counterexample: appending the same already-processed delta file twice
(as two runs of `process_delta_directory` over an unchanged changes
directory do) stores the `updated → SHP` record of serial "S1" twice in the
master history. -/
theorem c3_counterexample :
    updatedShpCount
      (append_to_master_history "t1" cexDeltaShp
        (append_to_master_history "t0" cexDeltaShp (emptyHistory "t")))
      "S1" = 2 := by
  decide

/-! ## Claim C6 -/

/-- C6 (amended): the diff output is a pure function of the two snapshots up
to the per-record `recorded_at` stamps: running the comparison with any two
clock oracles yields identical change-record lists once the timestamp field
is erased, so no other output content is derived from the wall clock. -/
theorem c6_deterministic_up_to_timestamps (clock1 clock2 : Nat → String)
    (prev cur : List (String × SnapRow)) :
    (compare_excel_files clock1 prev cur).map eraseTimestamp =
      (compare_excel_files clock2 prev cur).map eraseTimestamp :=
  compareRows_erase_clock clock1 clock2 _ [] 0 0

/-- C6 counterexample: the `recorded_at` stamp is not a single value applied
uniformly to the batch: `datetime.now()` is read once per emitted record, so
a batch of two changes carries two distinct stamps when the clock advances
between the two reads. -/
theorem c6_counterexample :
    (compare_excel_files cexClock [("S1", cexRowASH), ("S2", cexRowASH)]
        []).map Change.timestamp = ["t0", "t1"] ∧
      ("t0" : String) ≠ "t1" := by
  exact ⟨by decide, by decide⟩

/-! ## Claim C7 -/

/-- C7: a serial present in both snapshots with an unchanged status is never
emitted; diffing two identical unique-key snapshots yields the empty batch,
which extends the accumulated change log by nothing (its length is
unchanged) and leaves any current-status table unchanged. -/
theorem c7_no_op_cycles (clock : Nat → String)
    (prev cur snap : List (String × SnapRow)) (allCh : List Change)
    (st : List (String × Change)) (s : String) (o n : SnapRow)
    (hndp : (prev.map Prod.fst).Nodup) (hnds : (snap.map Prod.fst).Nodup)
    (hmem : (s, o) ∈ prev) (hcur : lookupRow cur s = some n)
    (hst : o.status = n.status) :
    (∀ c ∈ compare_excel_files clock prev cur, c.serial ≠ s) ∧
    compare_excel_files clock snap snap = [] ∧
    extendChanges allCh (compare_excel_files clock snap snap) = allCh ∧
    buildCurrentStatus st (compare_excel_files clock snap snap) = st := by
  have hempty : compare_excel_files clock snap snap = [] := by
    unfold compare_excel_files
    exact compareRows_all_both_equal clock _ [] 0 (mergedRows_self_all_equal hnds)
  refine ⟨?_, hempty, ?_, ?_⟩
  · intro c hc
    refine compareRows_both_equal clock s _ [] 0 ?_ c hc
    intro r hr hser
    have hfk := mergedRows_filter_key cur hndp hmem
    have hrmem : r ∈ (mergedRows prev cur).filter (fun r0 => r0.serial == s) :=
      List.mem_filter.mpr ⟨hr, by simp [hser]⟩
    rw [hfk] at hrmem
    have hreq : r = ⟨s, some o, lookupRow cur s⟩ := by simpa using hrmem
    rw [hreq, hcur]
    simp [MergedRow.oldStatus, MergedRow.newStatus, hst]
  · simp [extendChanges, hempty]
  · simp [buildCurrentStatus, hempty]

/-- C7 witness: the theorem applied to the singleton snapshot containing
`S1 = ASH` compared with itself, with an empty accumulated log and
current-status table. -/
theorem c7_witness :
    (((([("S1", cexRowASH)] : List (String × SnapRow)).map Prod.fst).Nodup ∧
      ("S1", cexRowASH) ∈ ([("S1", cexRowASH)] : List (String × SnapRow)) ∧
      lookupRow [("S1", cexRowASH)] "S1" = some cexRowASH ∧
      cexRowASH.status = cexRowASH.status) ∧
    ((∀ c ∈ compare_excel_files cexClock [("S1", cexRowASH)]
        [("S1", cexRowASH)], c.serial ≠ "S1") ∧
      compare_excel_files cexClock [("S1", cexRowASH)] [("S1", cexRowASH)] = [] ∧
      extendChanges []
        (compare_excel_files cexClock [("S1", cexRowASH)] [("S1", cexRowASH)]) = [] ∧
      buildCurrentStatus []
        (compare_excel_files cexClock [("S1", cexRowASH)] [("S1", cexRowASH)]) = [])) := by
  refine ⟨⟨by decide, by decide, by decide, rfl⟩, ?_⟩
  exact c7_no_op_cycles cexClock [("S1", cexRowASH)] [("S1", cexRowASH)]
    [("S1", cexRowASH)] [] [] "S1" cexRowASH cexRowASH (by decide) (by decide)
    (by decide) (by decide) rfl

/-! ## Lemmas about the materializer -/

theorem getRecord_cons (p : String × DRec) (m : List (String × DRec))
    (s : String) :
    getRecord (p :: m) s = if p.1 = s then some p.2 else getRecord m s := by
  by_cases hps : p.1 = s
  · have hfind : List.find? (fun q : String × DRec => q.1 == s) (p :: m) =
        some p :=
      List.find?_cons_of_pos _ (by simp [hps])
    simp [getRecord, hfind, hps]
  · have hfind : List.find? (fun q : String × DRec => q.1 == s) (p :: m) =
        List.find? (fun q : String × DRec => q.1 == s) m :=
      List.find?_cons_of_neg _ (by simp [hps])
    simp [getRecord, hfind, hps]

theorem getRecord_map_ne {k s : String} (hsk : s ≠ k) (v : DRec)
    (m : List (String × DRec)) :
    getRecord (m.map (fun q => if q.1 == k then (k, v) else q)) s =
      getRecord m s := by
  induction m with
  | nil => simp [getRecord]
  | cons q m ih =>
    simp only [List.map_cons]
    by_cases hqk : q.1 = k
    · rw [if_pos (by simp [hqk])]
      rw [getRecord_cons, getRecord_cons]
      rw [if_neg (fun h => hsk h.symm), if_neg (by rw [hqk]; exact fun h => hsk h.symm)]
      exact ih
    · rw [if_neg (by simp [hqk])]
      rw [getRecord_cons, getRecord_cons]
      by_cases hqs : q.1 = s
      · rw [if_pos hqs, if_pos hqs]
      · rw [if_neg hqs, if_neg hqs]
        exact ih

theorem getRecord_setRecord (m : List (String × DRec)) (k : String) (v : DRec)
    (s : String) :
    getRecord (setRecord m k v) s = if s = k then some v else getRecord m s := by
  induction m with
  | nil =>
    simp only [setRecord, List.any_nil, List.nil_append]
    rw [if_neg (by simp)]
    rw [getRecord_cons]
    by_cases hsk : s = k
    · simp [hsk]
    · have hks : ¬k = s := fun h => hsk h.symm
      rw [if_neg hks, if_neg hsk]
  | cons p m ih =>
    by_cases hpk : p.1 = k
    · have hany : ((p :: m).any fun q => q.1 == k) = true := by
        simp [List.any_cons, hpk]
      simp only [setRecord, hany, if_true, List.map_cons]
      rw [if_pos (by simp [hpk])]
      rw [getRecord_cons]
      by_cases hsk : s = k
      · simp [hsk]
      · rw [if_neg (by simpa using fun h => hsk h.symm), if_neg hsk]
        rw [getRecord_map_ne hsk]
        rw [getRecord_cons]
        rw [if_neg (by rw [hpk]; exact fun h => hsk h.symm)]
    · by_cases hm : (m.any fun q => q.1 == k) = true
      · have hany : ((p :: m).any fun q => q.1 == k) = true := by
          simp [List.any_cons, hm]
        have hset : setRecord m k v =
            m.map (fun q => if q.1 == k then (k, v) else q) := by
          simp [setRecord, hm]
        simp only [setRecord, hany, if_true, List.map_cons]
        rw [if_neg (by simp [hpk])]
        rw [getRecord_cons]
        by_cases hps : p.1 = s
        · have hsk : s ≠ k := by rw [← hps]; exact hpk
          rw [if_pos hps, if_neg hsk, getRecord_cons, if_pos hps]
        · rw [if_neg hps]
          rw [← hset, ih]
          by_cases hsk : s = k
          · simp [hsk]
          · simp [hsk]
            rw [getRecord_cons, if_neg hps]
      · have hany : ((p :: m).any fun q => q.1 == k) = false := by
          simp only [List.any_cons, Bool.or_eq_false_iff]
          exact ⟨by simp [hpk], Bool.eq_false_iff.mpr hm⟩
        have hset : setRecord m k v = m ++ [(k, v)] := by
          simp [setRecord, hm]
        simp only [setRecord, hany, Bool.false_eq_true, if_false,
          List.cons_append]
        rw [getRecord_cons]
        by_cases hps : p.1 = s
        · have hsk : s ≠ k := by rw [← hps]; exact hpk
          rw [if_pos hps, if_neg hsk, getRecord_cons, if_pos hps]
        · rw [if_neg hps]
          rw [← hset, ih]
          by_cases hsk : s = k
          · simp [hsk]
          · simp [hsk]
            rw [getRecord_cons, if_neg hps]

theorem getRecord_delRecord (m : List (String × DRec)) (k s : String) :
    getRecord (delRecord m k) s = if s = k then none else getRecord m s := by
  induction m with
  | nil =>
    by_cases hsk : s = k <;> simp [delRecord, getRecord, hsk]
  | cons p m ih =>
    by_cases hpk : p.1 = k
    · have hstep : delRecord (p :: m) k = delRecord m k := by
        simp [delRecord, List.filter_cons, hpk]
      rw [hstep, ih]
      by_cases hsk : s = k
      · simp [hsk]
      · rw [if_neg hsk, if_neg hsk, getRecord_cons]
        rw [if_neg (by rw [hpk]; exact fun h => hsk h.symm)]
    · have hstep : delRecord (p :: m) k = p :: delRecord m k := by
        simp [delRecord, List.filter_cons, hpk]
      rw [hstep, getRecord_cons]
      by_cases hps : p.1 = s
      · have hsk : s ≠ k := by rw [← hps]; exact hpk
        rw [if_pos hps, if_neg hsk, getRecord_cons, if_pos hps]
      · rw [if_neg hps, ih]
        by_cases hsk : s = k
        · simp [hsk]
        · simp [hsk]
          rw [getRecord_cons, if_neg hps]

theorem lastItemFor_cons (it : DeltaItem) (l : List DeltaItem) (s : String) :
    lastItemFor (it :: l) s =
      match lastItemFor l s with
      | some v => some v
      | none => if it.serial = s then some it.record else none := by
  simp only [lastItemFor, List.reverse_cons]
  rw [List.find?_append]
  cases hfind : l.reverse.find? (fun it0 => it0.serial == s) with
  | some x => simp [hfind]
  | none =>
    simp only [hfind, Option.none_or, Option.map_none]
    by_cases his : it.serial = s
    · simp [List.find?_cons, his]
    · simp [List.find?_cons, his]

theorem getRecord_foldl_set (l : List DeltaItem) :
    ∀ (m : List (String × DRec)) (s : String),
      getRecord (l.foldl (fun acc it => setRecord acc it.serial it.record) m) s =
        match lastItemFor l s with
        | some v => some v
        | none => getRecord m s := by
  induction l with
  | nil => intro m s; simp [lastItemFor]
  | cons it l ih =>
    intro m s
    simp only [List.foldl_cons]
    rw [ih, lastItemFor_cons]
    cases hlast : lastItemFor l s with
    | some v => simp
    | none =>
      simp only []
      rw [getRecord_setRecord]
      by_cases his : it.serial = s
      · simp [his]
      · have his2 : ¬s = it.serial := fun h => his h.symm
        rw [if_neg his2]
        simp [his]

theorem getRecord_foldl_del (l : List DeltaItem) :
    ∀ (m : List (String × DRec)) (s : String),
      getRecord (l.foldl (fun acc it => delRecord acc it.serial) m) s =
        if s ∈ l.map DeltaItem.serial then none else getRecord m s := by
  induction l with
  | nil => intro m s; simp
  | cons it l ih =>
    intro m s
    simp only [List.foldl_cons]
    rw [ih]
    by_cases hl : s ∈ l.map DeltaItem.serial
    · simp [hl]
    · rw [if_neg hl, getRecord_delRecord]
      by_cases his : s = it.serial
      · simp [his]
      · rw [if_neg his, if_neg (by simp [his, hl])]

theorem materializeFrom_records (clock : Nat → String) (ds : List Delta) :
    ∀ (k : Nat) (cs : CurStatus),
      (materializeFrom clock k cs ds).records =
        ds.foldl (fun m d => applyDeltaRecords d m) cs.records := by
  induction ds with
  | nil => intro k cs; simp [materializeFrom]
  | cons d ds ih =>
    intro k cs
    simp only [materializeFrom, List.foldl_cons]
    rw [ih]
    rfl

theorem runCycles_deltas_records (clock : Nat → String) (ds : List Delta) :
    ∀ (k : Nat) (h : History) (cs : CurStatus),
      ((runCycles clock k (h, cs) ds).1).deltas = h.deltas ++ ds ∧
      ((runCycles clock k (h, cs) ds).2).records =
        ds.foldl (fun m d => applyDeltaRecords d m) cs.records := by
  induction ds with
  | nil => intro k h cs; simp [runCycles]
  | cons d ds ih =>
    intro k h cs
    simp only [runCycles, runCycle, List.foldl_cons]
    obtain ⟨ih1, ih2⟩ := ih (k + 1) (append_to_master_history (clock k) d h)
      (generate_current_status (clock k) d cs)
    constructor
    · rw [ih1]
      simp [append_to_master_history]
    · rw [ih2]
      rfl

/-! ## Claim C5 -/

/-- C5: materializing the full master history produced by a sequence of
cycles onto the empty current-status table yields exactly the record table
that the incremental cycle-by-cycle application produced, for every sequence
of delta batches and any clocks. -/
theorem c5_replay_equals_incremental (clock1 clock2 : Nat → String)
    (now0 now1 : String) (ds : List Delta) :
    (replay_history clock2 now1
        (runCycles clock1 0 (emptyHistory now0, emptyCurStatus now0) ds).1).records =
      ((runCycles clock1 0 (emptyHistory now0, emptyCurStatus now0) ds).2).records := by
  obtain ⟨h1, h2⟩ := runCycles_deltas_records clock1 ds 0 (emptyHistory now0)
    (emptyCurStatus now0)
  rw [replay_history, materializeFrom_records, h1, h2]
  simp [emptyHistory, emptyCurStatus]

/-! ## Claim C10 -/

/-- C10: `generate_current_status` writes all `added` and `updated` items
before processing the `removed` items, so a serial that occurs both among
the added-or-updated items and among the removed items of one delta is
absent from the record table after the delta is applied. -/
theorem c10_removed_wins (now : String) (delta : Delta) (cs : CurStatus)
    (s : String)
    (h1 : s ∈ (delta.added ++ delta.updated).map DeltaItem.serial)
    (h2 : s ∈ delta.removed.map DeltaItem.serial) :
    getRecord (generate_current_status now delta cs).records s = none := by
  simp only [generate_current_status, applyDeltaRecords]
  rw [getRecord_foldl_del]
  rw [if_pos h2]

/-- C10 witness: a delta that both adds and removes serial "S1" leaves no
entry for it. -/
theorem c10_witness :
    ("S1" ∈ ((([] : List DeltaItem) ++ ([⟨"S1", cexDRecASH⟩] : List DeltaItem)).map DeltaItem.serial) ∧
      "S1" ∈ ([⟨"S1", cexDRecASH⟩] : List DeltaItem).map DeltaItem.serial) ∧
    getRecord (generate_current_status "t1"
        { added := [], updated := [⟨"S1", cexDRecASH⟩],
          removed := [⟨"S1", cexDRecASH⟩],
          addedCount := 0, removedCount := 1, updatedCount := 1 }
        (emptyCurStatus "t0")).records "S1" = none := by
  refine ⟨⟨by decide, by decide⟩, ?_⟩
  exact c10_removed_wins "t1" _ (emptyCurStatus "t0") "S1" (by decide) (by decide)

/-! ## Claim C4 -/

/-- C4 (amended): `generate_current_status` applies `updated` items
unconditionally: whatever the previous entry of a serial is — in particular
an entry whose status is the terminal "SHP" — the last updated record of the
delta overwrites it whenever the serial is not also removed by the same
delta.  No terminal-status guard exists in the materializer. -/
theorem c4_updated_overwrites_shipped (now : String) (delta : Delta)
    (cs : CurStatus) (s : String) (rec rec0 : DRec)
    (hprev : getRecord cs.records s = some rec0) (hship : rec0.status = "SHP")
    (hupd : lastItemFor delta.updated s = some rec)
    (hrem : s ∉ delta.removed.map DeltaItem.serial) :
    getRecord (generate_current_status now delta cs).records s = some rec := by
  simp only [generate_current_status, applyDeltaRecords]
  rw [getRecord_foldl_del, if_neg hrem, getRecord_foldl_set, hupd]

/-- C4 witness: the general overwrite theorem applied to a state in which
"S1" is "SHP" and a delta updating "S1" back to "ASH". -/
theorem c4_witness :
    (getRecord [("S1", cexDRecSHP)] "S1" = some cexDRecSHP ∧
      cexDRecSHP.status = "SHP" ∧
      lastItemFor ([⟨"S1", cexDRecASH⟩] : List DeltaItem) "S1" = some cexDRecASH ∧
      "S1" ∉ ([] : List DeltaItem).map DeltaItem.serial) ∧
    getRecord (generate_current_status "t1"
        { added := [], updated := [⟨"S1", cexDRecASH⟩], removed := [],
          addedCount := 0, removedCount := 0, updatedCount := 1 }
        { lastUpdated := "t0", recordCount := 1,
          records := [("S1", cexDRecSHP)] }).records "S1" = some cexDRecASH := by
  refine ⟨⟨by decide, by decide, by decide, by decide⟩, ?_⟩
  exact c4_updated_overwrites_shipped "t1" _ _ "S1" cexDRecASH cexDRecSHP
    (by decide) (by decide) (by decide) (by decide)

/-- C4 counterexample: in a reachable state whose entry for "S1" is the
terminal "SHP", applying a delta whose updated record for "S1" has to-status
"ASH" changes the entry to "ASH": the materializer does not reject the
non-SHP diff record. -/
theorem c4_counterexample :
    getRecord (generate_current_status "t1"
        { added := [], updated := [⟨"S1", cexDRecASH⟩], removed := [],
          addedCount := 0, removedCount := 0, updatedCount := 1 }
        { lastUpdated := "t0", recordCount := 1,
          records := [("S1", cexDRecSHP)] }).records "S1" = some cexDRecASH ∧
    cexDRecASH.status ≠ "SHP" ∧ cexDRecSHP.status = "SHP" := by
  exact ⟨by decide, by decide, by decide⟩

/-! ## Claim C2 -/

theorem hasStatus_iff (rows : List TRow) (s status : String) :
    hasStatus rows s status = true ↔
      ∃ r ∈ rows, r.serial = s ∧ r.status = status := by
  simp [hasStatus, List.any_eq_true]

/-- C2 (amended): for a serial with both "ASH" and "SHP" records in the
incoming frame, `process_ash_shp_statuses` drops its "ASH" records and keeps
its "SHP" records; and a serial all of whose records carry "SHP" is dropped
entirely — unconditionally, since the reconciler receives only the current
frame and consults no previously materialized state. -/
theorem c2_status_collapse (rows : List TRow) (s : String) :
    (hasStatus rows s "ASH" = true → hasStatus rows s "SHP" = true →
      (∀ p ∈ (process_ash_shp_statuses rows).1,
          p.1.serial = s → p.1.status ≠ "ASH") ∧
      (∀ r ∈ rows, r.serial = s → r.status = "SHP" →
        ∃ b, (r, b) ∈ (process_ash_shp_statuses rows).1)) ∧
    ((∀ r ∈ rows, r.serial = s → r.status = "SHP") →
      ∀ p ∈ (process_ash_shp_statuses rows).1, p.1.serial ≠ s) := by
  constructor
  · intro hash hshp
    constructor
    · intro p hp hser
      simp only [process_ash_shp_statuses] at hp
      obtain ⟨r, hr2, hpe⟩ := List.mem_map.mp hp
      have hr1 := List.mem_filter.mp hr2
      intro hstat
      have hcond := hr1.2
      rw [← hpe] at hser hstat
      have hser2 : r.serial = s := hser
      have hstat2 : r.status = "ASH" := hstat
      rw [hser2] at hcond
      simp [hash, hshp, hstat2] at hcond
    · intro r hr hser hstat
      refine ⟨_, List.mem_map_of_mem _ ?_⟩
      refine List.mem_filter.mpr ⟨List.mem_filter.mpr ⟨hr, ?_⟩, ?_⟩
      · simp [hser, hstat, hash]
      · simp [hser, hstat]
  · intro hall p hp hser
    simp only [process_ash_shp_statuses] at hp
    obtain ⟨r, hr2, hpe⟩ := List.mem_map.mp hp
    have hr1 := List.mem_filter.mp (List.mem_filter.mp hr2).1
    have hrmem := hr1.1
    have hcond := hr1.2
    rw [← hpe] at hser
    have hser2 : r.serial = s := hser
    have hstat : r.status = "SHP" := hall r hrmem hser2
    have hshp : hasStatus rows s "SHP" = true :=
      (hasStatus_iff rows s "SHP").mpr ⟨r, hrmem, hser2, hstat⟩
    have hash : hasStatus rows s "ASH" = false := by
      rw [← Bool.not_eq_true]
      intro h
      obtain ⟨r0, hr0, hser0, hstat0⟩ := (hasStatus_iff rows s "ASH").mp h
      have := hall r0 hr0 hser0
      rw [hstat0] at this
      simp at this
    rw [hser2] at hcond
    simp [hstat, hshp, hash] at hcond

/-- C2 witness: on the Scenario 2 frame (duplicate serial "S2" with both
statuses), the reconciler keeps only the "SHP" record. -/
theorem c2_witness :
    (hasStatus cexRowsBoth "S2" "ASH" = true ∧
      hasStatus cexRowsBoth "S2" "SHP" = true) ∧
    ((∀ p ∈ (process_ash_shp_statuses cexRowsBoth).1,
        p.1.serial = "S2" → p.1.status ≠ "ASH") ∧
      (∀ r ∈ cexRowsBoth, r.serial = "S2" → r.status = "SHP" →
        ∃ b, (r, b) ∈ (process_ash_shp_statuses cexRowsBoth).1)) :=
  ⟨⟨by decide, by decide⟩,
    (c2_status_collapse cexRowsBoth "S2").1 (by decide) (by decide)⟩

/-- C2 counterexample: a serial with only a "SHP" record is dropped by
`process_ash_shp_statuses` unconditionally — the function takes no
previously-materialized-state argument, so a PICKED record in that state
cannot rescue it — while `preprocess_serial_data` keeps the same only-SHP
record unconditionally; neither implements the claimed state-dependent
exception. -/
theorem c2_counterexample :
    (process_ash_shp_statuses [⟨"S2", "SHP", "u1"⟩]).1 = [] ∧
    preprocess_serial_data [⟨"S2", "SHP"⟩] = [⟨"S2", "SHP"⟩] := by
  exact ⟨by decide, by decide⟩

theorem exceeds_progress_bounds (serials : List SerialEntry) (r : AggRow)
    (hex : scanned_exceeds_expected serials r = true) :
    0 ≤ progress_percentage serials r ∧ progress_percentage serials r ≤ 100 := by
  obtain ⟨dc, hdc⟩ : ∃ dc, r.deliveryTotalPackages = some dc := by
    cases hdt : r.deliveryTotalPackages with
    | none =>
      exfalso
      simp only [scanned_exceeds_expected, hdt] at hex
      exact absurd hex (by simp)
    | some dc => exact ⟨dc, rfl⟩
  simp only [progress_percentage, hdc, hex]
  simp only [Option.isSome_some, Bool.and_self, if_true, Bool.not_true,
    Bool.false_eq_true, if_false]
  split_ifs with h1 h2 h3
  · norm_num
  · refine ⟨le_min (by norm_num) ?_, min_le_left _ _⟩
    positivity
  · norm_num
  · norm_num

/-! ## Claim C8 -/

/-- C8 (amended): the clamped progress computations of `process_snapshot` —
the material `completion_percentage` and the `progress_percentage` of a row
flagged `scanned_exceeds_expected` — always lie in [0, 100]; the unclamped
`calculate_progress_metrics` of the backend transformers does not share this
bound. -/
theorem c8_clamped_progress_bounds :
    (∀ scanned expected : ℚ,
      0 ≤ completion_percentage scanned expected ∧
        completion_percentage scanned expected ≤ 100) ∧
    (∀ (serials : List SerialEntry) (r : AggRow),
      scanned_exceeds_expected serials r = true →
        0 ≤ progress_percentage serials r ∧
          progress_percentage serials r ≤ 100) := by
  constructor
  · intro scanned expected
    unfold completion_percentage
    split_ifs with h
    · constructor
      · exact le_max_left 0 _
      · exact max_le (by norm_num) (min_le_left _ _)
    · norm_num
  · exact exceeds_progress_bounds

/-- C8 witness: the clamped bounds evaluated at the Scenario 3 inputs
(scanned quantity 12 against expected 10, and a flagged aggregation row). -/
theorem c8_witness :
    (0 ≤ completion_percentage 12 10 ∧ completion_percentage 12 10 ≤ 100) ∧
    (scanned_exceeds_expected cexSerialsD cexAggRow = true ∧
      (0 ≤ progress_percentage cexSerialsD cexAggRow ∧
        progress_percentage cexSerialsD cexAggRow ≤ 100)) :=
  ⟨c8_clamped_progress_bounds.1 12 10,
    ⟨by decide, c8_clamped_progress_bounds.2 cexSerialsD cexAggRow (by decide)⟩⟩

/-- C8 counterexample: `calculate_progress_metrics` applies no clamp: with
12 scanned serials against 10 expected packages it reports 120, outside
[0, 100]. -/
theorem c8_counterexample :
    calculate_progress_metrics 12 10 = 120 ∧
      ¬calculate_progress_metrics 12 10 ≤ 100 := by
  constructor
  · norm_num [calculate_progress_metrics]
  · norm_num [calculate_progress_metrics]

/-! ## Claim C9 -/

/-- C9 (amended): for an aggregation row flagged `scanned_exceeds_expected`,
the recalculated progress percentage is capped: it stays within [0, 100]
(computed against the full per-delivery serial count, the larger figure);
the flag itself, however, is used only internally — the cleanup step drops
the `scanned_exceeds_expected` column before the output frame is written, so
the caller-visible column set does not carry it. -/
theorem c9_exceeds_capped_flag_dropped (serials : List SerialEntry)
    (r : AggRow) (hex : scanned_exceeds_expected serials r = true) :
    (0 ≤ progress_percentage serials r ∧ progress_percentage serials r ≤ 100) ∧
    "scanned_exceeds_expected" ∈ aggColumnsBeforeCleanup ∧
    "scanned_exceeds_expected" ∉ aggColumnsFinal :=
  ⟨exceeds_progress_bounds serials r hex, by decide, by decide⟩

/-- C9 witness: the capped-progress theorem applied to the Scenario 3 row
(12 serials against 10 expected packages). -/
theorem c9_witness :
    scanned_exceeds_expected cexSerialsD cexAggRow = true ∧
    ((0 ≤ progress_percentage cexSerialsD cexAggRow ∧
        progress_percentage cexSerialsD cexAggRow ≤ 100) ∧
      "scanned_exceeds_expected" ∈ aggColumnsBeforeCleanup ∧
      "scanned_exceeds_expected" ∉ aggColumnsFinal) :=
  ⟨by decide, c9_exceeds_capped_flag_dropped cexSerialsD cexAggRow (by decide)⟩

/-- C9 counterexample: on the Scenario 3 inputs the flag is computed and the
progress is capped at 100, but the `scanned_exceeds_expected` column is
dropped from the output frame: the discrepancy flag is not visible to the
caller, contradicting the claim that the per-delivery output carries it. -/
theorem c9_counterexample :
    scanned_exceeds_expected cexSerialsD cexAggRow = true ∧
    progress_percentage cexSerialsD cexAggRow = 100 ∧
    "scanned_exceeds_expected" ∈ aggColumnsBeforeCleanup ∧
    "scanned_exceeds_expected" ∉ aggColumnsFinal := by
  refine ⟨by decide, ?_, by decide, by decide⟩
  have h1 : scanned_exceeds_expected cexSerialsD
      { user := "u1", delivery := "D", ashCount := 5, shpCount := 7,
        deliveryTotalPackages := some 10 } = true := by decide
  have h2 : serialCountFor cexSerialsD "D" = 12 := by decide
  have h3 : statusCountFor cexSerialsD "D" "ASH" = 5 := by decide
  have h4 : statusCountFor cexSerialsD "D" "SHP" = 7 := by decide
  simp only [progress_percentage, cexAggRow, h1, h2, h3, h4]
  norm_num

end Countdown
